import Mathlib

/-!
Verification development for the nxlog configuration analyzer
(`src/nxlog_analyzer.py`).  The Python source is shallowly embedded:
strings are Lean `String`s (manipulated through their character lists),
the regex-based line matchers are modelled exactly (including the
greedy/backtracking behaviour of the concrete patterns on the inputs the
scanner feeds them), Python dicts are insertion-ordered association
lists with first-occurrence overwrite, and the stateful parser loop is a
recursion over the remaining lines.
-/

namespace NXLog

/-! ### Character classes and Python string primitives -/

/-- Python whitespace for `str.strip` and the regex class `\s`
(ASCII part: space, tab, newline, carriage return, vertical tab, form feed). -/
def isWS (c : Char) : Bool :=
  c == ' ' || c == '\t' || c == '\n' || c == '\r' || c == Char.ofNat 11 || c == Char.ofNat 12

/-- The regex class `\w` (ASCII part: alphanumeric or underscore). -/
def isWord (c : Char) : Bool := c.isAlphanum || c == '_'

/-- The single-quote character (ASCII 39). -/
def squote : Char := Char.ofNat 39

/-- The double-quote character (ASCII 34). -/
def dquote : Char := Char.ofNat 34

/-- Python `str.strip()` on a character list. -/
def pyStripL (l : List Char) : List Char := (l.dropWhile isWS).rdropWhile isWS

/-- Python `str.strip()`. -/
def pyStrip (s : String) : String := String.mk (pyStripL s.data)

/-- Python `sep.join(xs)`. -/
def joinSep (sep : String) : List String → String
  | [] => ""
  | [x] => x
  | x :: y :: xs => x ++ sep ++ joinSep sep (y :: xs)

/-- Python `s.split(c)` for a single-character separator `c`. -/
def splitChar (sep : Char) : List Char → List (List Char)
  | [] => [[]]
  | c :: rest =>
    if c = sep then [] :: splitChar sep rest
    else
      match splitChar sep rest with
      | [] => [[c]]
      | h :: t => (c :: h) :: t

/-- Python split of a string on the comma character. -/
def splitComma : List Char → List (List Char) := splitChar ','

/-- Python split of a string on the newline character (used on the whole file content). -/
def splitNl : List Char → List (List Char) := splitChar '\n'

/-- Python split of a string on the two-character arrow separator, leftmost-first. -/
def splitArrow : List Char → List (List Char)
  | [] => [[]]
  | '=' :: '>' :: rest => [] :: splitArrow rest
  | c :: rest =>
    match splitArrow rest with
    | [] => [[c]]
    | h :: t => (c :: h) :: t

/-- Python substring containment test for the arrow separator. -/
def hasArrow : List Char → Bool
  | [] => false
  | '=' :: '>' :: _ => true
  | _ :: rest => hasArrow rest

/-- The quote-stripping step of the parameter-line handler: take
`param_value[1:-1]` when the value both starts and ends with the same
quote character, double quote checked before single quote. -/
def stripQuotesL (v : List Char) : List Char :=
  if v.head? = some dquote ∧ v.getLast? = some dquote then (v.drop 1).dropLast
  else if v.head? = some squote ∧ v.getLast? = some squote then (v.drop 1).dropLast
  else v

/-- Quote stripping on `String`. -/
def stripQuotes (v : String) : String := String.mk (stripQuotesL v.data)

/-! ### Line matchers

Each matcher models one of the `re.match` calls of the parser on an
(already stripped) line, with the exact semantics of the concrete
pattern: `re.match` anchors only at the start, `.` does not match a
newline, and greedy groups backtrack just enough for the remainder of
the pattern to succeed. -/

/-- Model of the section opening tag matcher, pattern `<(\w+)\s+([^>]+)>`.
Returns (tag, section name). -/
def matchOpenL (l : List Char) : Option (List Char × List Char) :=
  match l with
  | [] => none
  | c :: rest =>
    if c = '<' then
      let w := rest.takeWhile isWord
      let r1 := rest.dropWhile isWord
      if w = [] then none
      else
        match r1.findIdx? (fun ch => ch == '>') with
        | none => none
        | some p =>
          let sp := r1.takeWhile isWS
          if sp ≠ [] ∧ 2 ≤ p then
            let k := min sp.length (p - 1)
            some (w, (r1.drop k).take (p - k))
          else none
    else none

/-- Model of the section closing tag matcher, pattern `</\w+>`. -/
def matchCloseL (l : List Char) : Bool :=
  match l with
  | c1 :: c2 :: rest =>
    c1 == '<' && c2 == '/' && !(rest.takeWhile isWord).isEmpty &&
      ((rest.dropWhile isWord).head? == some '>')
  | _ => false

/-- Model of the case-insensitive `<Exec>` opening matcher. -/
def matchExecOpenL (l : List Char) : Bool :=
  match l with
  | c :: rest => c == '<' && ((rest.take 5).map Char.toLower == ['e', 'x', 'e', 'c', '>'])
  | [] => false

/-- Model of the case-insensitive `</Exec>` closing matcher. -/
def matchExecCloseL (l : List Char) : Bool :=
  match l with
  | c1 :: c2 :: rest =>
    c1 == '<' && c2 == '/' && ((rest.take 5).map Char.toLower == ['e', 'x', 'e', 'c', '>'])
  | _ => false

/-- Model of the parameter line matcher, pattern `(\w+)\s+(.+)`, with the
value group already passed through strip as the parser does.  The greedy `\s+` backtracks
one step when the tail after the whitespace run is empty but the run can
donate a (non-newline) character to `(.+)`; the stripped group is then
empty. -/
def matchParamL (l : List Char) : Option (List Char × List Char) :=
  let w := l.takeWhile isWord
  let r := l.dropWhile isWord
  let sp := r.takeWhile isWS
  let rem := r.dropWhile isWS
  if w = [] ∨ sp = [] then none
  else if rem ≠ [] then some (w, pyStripL (rem.takeWhile (fun c => c != '\n')))
  else if (sp.drop 1).any (fun c => c != '\n') then some (w, [])
  else none

/-- Model of the case-insensitive bare `Exec\s+(.+)` matcher used by the
implicit multi-line Exec merge; returns the stripped value group. -/
def matchBareExecL (l : List Char) : Option (List Char) :=
  match l with
  | c1 :: c2 :: c3 :: c4 :: rest =>
    if c1.toLower = 'e' ∧ c2.toLower = 'x' ∧ c3.toLower = 'e' ∧ c4.toLower = 'c' then
      let sp := rest.takeWhile isWS
      let rem := rest.dropWhile isWS
      if sp = [] then none
      else if rem ≠ [] then some (pyStripL (rem.takeWhile (fun c => c != '\n')))
      else if (sp.drop 1).any (fun c => c != '\n') then some [] else none
    else none
  | _ => none

/-! ### Data model (FlowMapper) -/

/-- One parsed key-value assignment (the core fields of the dict the
parser appends to `file_data`). -/
structure Rec where
  sectionType : String
  sectionName : String
  parameter : String
  value : String
deriving DecidableEq, Repr

/-- One entry of `FlowMapper.routes`. -/
structure RouteInfo where
  path : String
  priority : Option String
  condition : Option String
  inputs : List String
  processors : List String
  outputs : List String
deriving DecidableEq, Repr

/-- One entry of `FlowMapper.sections`. -/
structure SectionEnt where
  type : String
  module : Option String
  details : List (String × String)
  connectedRoutes : List String
deriving DecidableEq, Repr

/-- One entry of `FlowMapper.sections_info` (here `module` is the string
`module or the empty string`). -/
structure SInfo where
  type : String
  module : String
  details : List (String × String)
deriving DecidableEq, Repr

/-- One flow dict produced by `analyze_flows`.  `sourceModule`/`targetModule`
are `Option String` because a declared section may have module `None`;
an undeclared endpoint yields `some "Unknown"` (the `.get` default). -/
structure Flow where
  route : String
  source : String
  target : String
  destination : String
  sourceType : String
  targetType : String
  sourceModule : Option String
  targetModule : Option String
  priority : String
  condition : String
deriving DecidableEq, Repr

/-- The `FlowMapper` object state. -/
structure Mapper where
  routes : List (String × RouteInfo)
  sections : List (String × SectionEnt)
  flows : List Flow
  sectionsInfo : List (String × SInfo)
  unconnected : List String
  graphviz : String
deriving DecidableEq, Repr

/-- The dict returned by `analyze_flows`. -/
structure Output where
  flows : List Flow
  sections : List (String × SInfo)
  unconnected : List String
  stats : List (String × Nat)
  graphviz : String
deriving DecidableEq, Repr

/-- Python dict lookup `d.get(k)` on an insertion-ordered association list. -/
def dget {α : Type} : List (String × α) → String → Option α
  | [], _ => none
  | (k0, v0) :: rest, k => if k0 = k then some v0 else dget rest k

/-- Python dict assignment `d[k] = v`: overwrite in place if the key
exists, else append. -/
def dset {α : Type} : List (String × α) → String → α → List (String × α)
  | [], k, v => [(k, v)]
  | (k0, v0) :: rest, k, v => if k0 = k then (k, v) :: rest else (k0, v0) :: dset rest k v

def initMapper : Mapper := ⟨[], [], [], [], [], ""⟩

/-- Model of `FlowMapper._parse_route_path`: split the path on `=>`; first stage
gives inputs, last stage outputs, interior stages (flattened) processors;
a path without `=>` yields nothing. -/
def parseRoutePath (path : String) : List String × List String × List String :=
  if hasArrow path.data then
    let parts := (splitArrow path.data).map pyStripL
    let inputs :=
      if parts.headD [] ≠ [] then
        (splitComma (parts.headD [])).map (fun s => String.mk (pyStripL s))
      else []
    let outputs :=
      if parts.length > 1 ∧ parts.getLastD [] ≠ [] then
        (splitComma (parts.getLastD [])).map (fun s => String.mk (pyStripL s))
      else []
    let processors :=
      if parts.length > 2 then
        ((parts.drop 1).dropLast).flatMap (fun part =>
          if part ≠ [] then (splitComma part).map (fun s => String.mk (pyStripL s)) else [])
      else []
    (inputs, processors, outputs)
  else ([], [], [])

/-- Model of `FlowMapper.add_route`. -/
def addRoute (m : Mapper) (name path : String) (priority condition : Option String) : Mapper :=
  let pr := parseRoutePath path
  { m with routes := dset m.routes name ⟨path, priority, condition, pr.1, pr.2.1, pr.2.2⟩ }

/-- Model of `FlowMapper.add_section`. -/
def addSection (m : Mapper) (name typ : String) (module : Option String)
    (details : List (String × String)) : Mapper :=
  { m with
    sections := dset m.sections name ⟨typ, module, details, []⟩
    sectionsInfo := dset m.sectionsInfo name ⟨typ, module.getD "", details⟩ }

/-- The flattened component list `inputs + processors + outputs` of a route. -/
def allComponents (info : RouteInfo) : List String :=
  info.inputs ++ info.processors ++ info.outputs

/-- Lookup of the type and module of a declared section, defaulting to the
Unknown marker when the name was never declared. -/
def lookupTM (secs : List (String × SectionEnt)) (k : String) : String × Option String :=
  match dget secs k with
  | some s => (s.type, s.module)
  | none => ("Unknown", some "Unknown")

/-- Python falsy-or with the N/A sentinel, on an optional priority or condition string. -/
def orNA : Option String → String
  | none => "N/A"
  | some p => if p = "" then "N/A" else p

/-- One flow dict of `analyze_flows`. -/
def mkFlow (secs : List (String × SectionEnt)) (rname : String) (info : RouteInfo)
    (s t : String) : Flow :=
  { route := rname, source := s, target := t, destination := t
    sourceType := (lookupTM secs s).1, targetType := (lookupTM secs t).1
    sourceModule := (lookupTM secs s).2, targetModule := (lookupTM secs t).2
    priority := orNA info.priority, condition := orNA info.condition }

/-- Append the route name to `connected_routes` of one section, if declared. -/
def markOne (secs : List (String × SectionEnt)) (rname s : String) :
    List (String × SectionEnt) :=
  match dget secs s with
  | some sec => dset secs s { sec with connectedRoutes := sec.connectedRoutes ++ [rname] }
  | none => secs

/-- The `for section_name in inputs + processors + outputs` marking loop. -/
def markRoute (secs : List (String × SectionEnt)) (rname : String) (info : RouteInfo) :
    List (String × SectionEnt) :=
  (allComponents info).foldl (fun acc s => markOne acc rname s) secs

/-- The `for i in range(len(all_components) - 1)` flow-building loop. -/
def flowsOfRoute (secs : List (String × SectionEnt)) (rname : String) (info : RouteInfo) :
    List Flow :=
  let all := allComponents info
  (List.range (all.length - 1)).map (fun i => mkFlow secs rname info (all.getD i "") (all.getD (i + 1) ""))

/-- The per-route body of `analyze_flows`: mark the connected sections,
then build the flows of this route; iterate in route insertion order. -/
def analyzeGo : List (String × SectionEnt) → List (String × RouteInfo) →
    List (String × SectionEnt) × List Flow
  | secs, [] => (secs, [])
  | secs, (n, info) :: rest =>
    let secs1 := markRoute secs n info
    let fl := flowsOfRoute secs1 n info
    let r := analyzeGo secs1 rest
    (r.1, fl ++ r.2)

/-- The `type_counts` dict of `_get_flow_stats`. -/
def typeCounts (sinfo : List (String × SInfo)) : List (String × Nat) :=
  sinfo.foldl (fun tc p => dset tc p.2.type ((dget tc p.2.type).getD 0 + 1)) []

/-- Model of `_get_flow_stats`: the base stats dict, then `stats.update(type_counts)`. -/
def mkStats (nroutes : Nat) (sinfo : List (String × SInfo)) (nflows nunconnected : Nat) :
    List (String × Nat) :=
  (typeCounts sinfo).foldl (fun st p => dset st p.1 p.2)
    [("total_routes", nroutes), ("total_sections", sinfo.length),
     ("total_flows", nflows), ("unconnected_sections", nunconnected)]

/-! ### Graphviz serializer (`_generate_graphviz`) -/

def colorsTable : List (String × String) :=
  [("Input", "#E8F5E8"), ("Output", "#FFE8E8"), ("Processor", "#E8E8FF"),
   ("Extension", "#FFFFE8"), ("Route", "#F0F0F0")]

def palette : List String :=
  ["#FF6B6B", "#4ECDC4", "#45B7D1", "#96CEB4", "#FFEAA7", "#DDA0DD"]

/-- One node line of the diagram. -/
def nodeLine (unconnected : List String) (p : String × SInfo) : String :=
  let color := (dget colorsTable p.2.type).getD "#FFFFFF"
  let label := p.1 ++ "\\n(" ++ p.2.type ++ ")" ++
    (if p.2.module ≠ "" then "\\n" ++ p.2.module else "")
  if unconnected.contains p.1 then
    "    \"" ++ p.1 ++ "\" [label=\"" ++ label ++ "\", fillcolor=\"" ++ color ++
      "\", style=\"filled,dashed\"];"
  else
    "    \"" ++ p.1 ++ "\" [label=\"" ++ label ++ "\", fillcolor=\"" ++ color ++ "\"];"

/-- The edge label: route name, then priority and (truncated) condition if present. -/
def edgeLabel (f : Flow) : String :=
  "Route: " ++ f.route ++
    (if f.priority ≠ "N/A" then "\\nPriorité: " ++ f.priority else "") ++
    (if f.condition ≠ "N/A" then
      "\\nCondition: " ++
        (if f.condition.length > 30 then f.condition.take 30 ++ "..." else f.condition)
    else "")

/-- The edge loop with the per-route color map and cycling color index. -/
def edgeLinesGo : List Flow → List (String × String) → Nat → List String
  | [], _, _ => []
  | f :: rest, cmap, idx =>
    match dget cmap f.route with
    | some c =>
      ("    \"" ++ f.source ++ "\" -> \"" ++ f.destination ++ "\" [label=\"" ++
        edgeLabel f ++ "\", color=\"" ++ c ++ "\", fontcolor=\"" ++ c ++ "\"];")
        :: edgeLinesGo rest cmap idx
    | none =>
      let c := palette.getD (idx % palette.length) ""
      ("    \"" ++ f.source ++ "\" -> \"" ++ f.destination ++ "\" [label=\"" ++
        edgeLabel f ++ "\", color=\"" ++ c ++ "\", fontcolor=\"" ++ c ++ "\"];")
        :: edgeLinesGo rest (dset cmap f.route c) (idx + 1)

/-- Model of `_generate_graphviz` as a pure function of sections info, unconnected
set and flows. -/
def genGraphviz (sinfo : List (String × SInfo)) (unconnected : List String)
    (flows : List Flow) : String :=
  let nodes := sinfo.map (nodeLine unconnected)
  let edges := edgeLinesGo flows [] 0
  let legend := colorsTable.filterMap (fun p =>
    if sinfo.any (fun q => q.2.type == p.1) then
      some ("        \"legend_" ++ p.1 ++ "\" [label=\"" ++ p.1 ++ "\", fillcolor=\"" ++
        p.2 ++ "\", shape=box];")
    else none)
  joinSep "\n"
    (["digraph NXLogFlow \x7b", "    rankdir=LR;", "    node [shape=box, style=filled];",
      "    edge [fontsize=10];", "", "    // Sections"] ++
     nodes ++ ["", "    // Flux de données"] ++ edges ++
     ["", "    // Légende", "    subgraph cluster_legend \x7b", "        label=\"Légende\";",
      "        style=filled;", "        fillcolor=\"#F5F5F5\";", "        fontsize=12;", ""] ++
     legend ++
     ["        \"legend_disconnected\" [label=\"Non connecté\", fillcolor=\"#FFFFFF\", style=\"filled,dashed\", shape=box];",
      "    \x7d", "", "\x7d"])

/-- The pure tail of `analyze_flows` after the per-route loop: the
unconnected set (declared names minus flow endpoints), the stats dict,
the regenerated diagram, and the returned result dict. -/
def analyzeOut (routes : List (String × RouteInfo)) (sinfo : List (String × SInfo))
    (flows : List Flow) : Output :=
  let unconnected := (sinfo.map Prod.fst).filter
    (fun k => !(flows.any (fun f => f.source == k || f.target == k)))
  { flows := flows, sections := sinfo, unconnected := unconnected
    stats := mkStats routes.length sinfo flows.length unconnected.length
    graphviz := genGraphviz sinfo unconnected flows }

/-- Model of `FlowMapper.analyze_flows`: resets `flows`, marks connections and builds
flows per route, recomputes the unconnected set, regenerates the diagram,
and returns the result dict (the mutated mapper is the first component). -/
def analyzeFlows (m : Mapper) : Mapper × Output :=
  let ag := analyzeGo m.sections m.routes
  let out := analyzeOut m.routes m.sectionsInfo ag.2
  ({ m with
      sections := ag.1
      flows := ag.2
      unconnected := out.unconnected
      graphviz := out.graphviz },
    out)

/-- Model of `FlowMapper._parse_path_expression`: the auxiliary cartesian path
expansion (every (source, dest) combination of each adjacent stage pair). -/
def parsePathExpression (pathExpr : String) : List (String × String) :=
  let segments := (splitArrow (pyStripL pathExpr.data)).map pyStripL
  (List.range (segments.length - 1)).flatMap (fun i =>
    let sources := (splitComma (segments.getD i [])).map pyStripL
    let dests := (splitComma (segments.getD (i + 1) [])).map pyStripL
    sources.flatMap (fun s => dests.flatMap (fun d =>
      if s ≠ [] ∧ d ≠ [] then [(String.mk (pyStripL s), String.mk (pyStripL d))] else [])))

/-! ### Block parser (`NXLogConfigAnalyzer.parse_config_file`) -/

/-- The mutable variables of the parser: the current section context
(`current_section`, `current_section_name`, both set and cleared
together), `section_module`, `section_details`, the emitted record list
`file_data` and the `FlowMapper`. -/
structure PState where
  cur : Option (String × String)
  secModule : Option String
  details : List (String × String)
  records : List Rec
  fm : Mapper
deriving DecidableEq, Repr

def initPState : PState := ⟨none, none, [], [], initMapper⟩

/-- The `<Exec>` block collector: gather every non-blank stripped line up
to (and consuming, without including) a `</Exec>` line or end of input.
Returns (captured lines, remaining lines). -/
def collectExecBlock : List String → List String × List String
  | [] => ([], [])
  | l :: ls =>
    let e := pyStripL l.data
    if matchExecCloseL e then ([], ls)
    else
      let r := collectExecBlock ls
      (if e = [] then r.1 else String.mk e :: r.1, r.2)

/-- The implicit multi-line Exec scan: consume every immediately-following
bare `Exec value` line (blank lines are skipped and consumed), collecting
the stripped values.  Returns (collected values, remaining lines). -/
def collectBareExec : List String → List String × List String
  | [] => ([], [])
  | l :: ls =>
    let nl := pyStripL l.data
    if nl = [] then collectBareExec ls
    else
      match matchBareExecL nl with
      | some v =>
        let r := collectBareExec ls
        (String.mk v :: r.1, r.2)
      | none => ([], l :: ls)

/-- One iteration of the main `while` loop of the parser on the (already
stripped) current line, given the lines after it.  Returns the next state
and the remaining lines (the cursor manipulation of the loop). -/
def stepLine (st : PState) (line : List Char) (ls : List String) : PState × List String :=
  if line = [] then (st, ls)
  else
    match matchOpenL line with
    | some (t, n) =>
      ({ st with cur := some (String.mk t, String.mk n), secModule := none, details := [] }, ls)
    | none =>
      if matchCloseL line then
        let fm' :=
          match st.cur with
          | some (t, n) => addSection st.fm n t st.secModule st.details
          | none => st.fm
        ({ st with cur := none, secModule := none, details := [], fm := fm' }, ls)
      else if matchExecOpenL line then
        let ex := collectExecBlock ls
        let st' :=
          match st.cur, ex.1 with
          | some (t, n), v :: vs =>
            { st with records := st.records ++ [⟨t, n, "Exec", joinSep "\n" (v :: vs)⟩] }
          | _, _ => st
        (st', ex.2)
      else
        match matchParamL line with
        | some (wl, v0l) =>
          match st.cur with
          | none => (st, ls)
          | some (t, n) =>
            let w := String.mk wl
            let me := if String.mk (wl.map Char.toLower) = "exec" then collectBareExec ls
                      else ([], ls)
            let v := stripQuotes (joinSep " | " (String.mk v0l :: me.1))
            let module' := if w = "Module" then some v else st.secModule
            let fm' :=
              if t = "Route" ∧ w = "Path" then
                addRoute st.fm n v (dget st.details "Priority") (dget st.details "Condition")
              else st.fm
            ({ st with secModule := module', fm := fm'
                       details := dset st.details w v
                       records := st.records ++ [⟨t, n, w, v⟩] }, me.2)
        | none => (st, ls)

theorem collectExecBlock_rest_suffix (ls : List String) :
    (collectExecBlock ls).2.IsSuffix ls := by
  induction ls with
  | nil => exact List.nil_suffix
  | cons l ls ih =>
    simp only [collectExecBlock]
    split
    · exact (List.suffix_cons l ls)
    · exact ih.trans (List.suffix_cons l ls)

theorem collectBareExec_rest_suffix (ls : List String) :
    (collectBareExec ls).2.IsSuffix ls := by
  induction ls with
  | nil => exact List.nil_suffix
  | cons l ls ih =>
    simp only [collectBareExec]
    split
    · exact ih.trans (List.suffix_cons l ls)
    · split
      · exact ih.trans (List.suffix_cons l ls)
      · exact List.suffix_refl _

theorem stepLine_rest_suffix (st : PState) (line : List Char) (ls : List String) :
    (stepLine st line ls).2.IsSuffix ls := by
  unfold stepLine
  repeat' split
  all_goals
    first
    | exact List.suffix_refl _
    | exact collectExecBlock_rest_suffix ls
    | exact collectBareExec_rest_suffix ls

/-- The main scan loop over the lines of the file, with an explicit step bound
(each iteration consumes at least the current line, so a bound equal to
the number of remaining lines always suffices; see `parseLinesF_eq`). -/
def parseLinesF : Nat → PState → List String → PState
  | _, st, [] => st
  | 0, st, _ :: _ => st
  | fuel + 1, st, l :: ls =>
    parseLinesF fuel (stepLine st (pyStripL l.data) ls).1 (stepLine st (pyStripL l.data) ls).2

/-- The main scan loop over the lines of the file. -/
def parseLines (st : PState) (lines : List String) : PState :=
  parseLinesF lines.length st lines

/-- Any sufficient step bound computes the same result as `parseLines`. -/
theorem parseLinesF_eq (fuel : Nat) (st : PState) (lines : List String)
    (h : lines.length ≤ fuel) : parseLinesF fuel st lines = parseLines st lines := by
  unfold parseLines
  induction fuel using Nat.strong_induction_on generalizing st lines with
  | _ fuel ih =>
    cases lines with
    | nil => cases fuel <;> rfl
    | cons l ls =>
      cases fuel with
      | zero => simp at h
      | succ n =>
        have hr := (stepLine_rest_suffix st (pyStripL l.data) ls).length_le
        have hlen : ls.length ≤ n := by simp at h; omega
        show parseLinesF n (stepLine st (pyStripL l.data) ls).1
            (stepLine st (pyStripL l.data) ls).2 =
          parseLinesF (ls.length + 1) st (l :: ls)
        rw [show parseLinesF (ls.length + 1) st (l :: ls) =
            parseLinesF ls.length (stepLine st (pyStripL l.data) ls).1
              (stepLine st (pyStripL l.data) ls).2 from rfl]
        rw [ih n (Nat.lt_succ_self n) _ _ (le_trans hr hlen),
          ih ls.length (by omega) _ _ hr]

/-- Unfolding equation for the scan loop. -/
theorem parseLines_cons (st : PState) (l : String) (ls : List String) :
    parseLines st (l :: ls) =
      parseLines (stepLine st (pyStripL l.data) ls).1 (stepLine st (pyStripL l.data) ls).2 := by
  show parseLinesF (ls.length + 1) st (l :: ls) = _
  rw [show parseLinesF (ls.length + 1) st (l :: ls) =
      parseLinesF ls.length (stepLine st (pyStripL l.data) ls).1
        (stepLine st (pyStripL l.data) ls).2 from rfl]
  exact parseLinesF_eq ls.length _ _ (stepLine_rest_suffix st (pyStripL l.data) ls).length_le

/-! ### Basic lemmas about the string primitives and matchers -/

theorem mkData (s : String) : String.mk s.data = s := by cases s; rfl

theorem ws_not_word {c : Char} (h : isWS c = true) : isWord c = false := by
  simp only [isWS, Bool.or_eq_true, beq_iff_eq] at h
  rcases h with ((((h | h) | h) | h) | h) | h <;> subst h <;> decide

theorem word_not_ws {c : Char} (h : isWord c = true) : isWS c = false := by
  cases hws : isWS c
  · rfl
  · rw [ws_not_word hws] at h; exact Bool.noConfusion h

theorem word_ne_lt {c : Char} (h : isWord c = true) : c ≠ '<' := by
  intro he; subst he; exact absurd h (by decide)

theorem takeWhile_append_of {α : Type} (p : α → Bool) (w : List α) (x : α) (v : List α)
    (hw : ∀ c ∈ w, p c = true) (hx : p x = false) :
    (w ++ x :: v).takeWhile p = w := by
  induction w with
  | nil => simp [List.takeWhile_cons, hx]
  | cons c cs ih =>
    rw [List.cons_append, List.takeWhile_cons, if_pos (hw c (by simp)),
      ih (fun d hd => hw d (by simp [hd]))]

theorem dropWhile_append_of {α : Type} (p : α → Bool) (w : List α) (x : α) (v : List α)
    (hw : ∀ c ∈ w, p c = true) (hx : p x = false) :
    (w ++ x :: v).dropWhile p = x :: v := by
  induction w with
  | nil => simp [List.dropWhile_cons, hx]
  | cons c cs ih =>
    rw [List.cons_append, List.dropWhile_cons, if_pos (hw c (by simp))]
    exact ih (fun d hd => hw d (by simp [hd]))

theorem head_false_of_dropWhile_self {α : Type} {p : α → Bool} {c : α} {cs : List α}
    (h : (c :: cs).dropWhile p = c :: cs) : p c = false := by
  cases hc : p c
  · rfl
  · rw [List.dropWhile_cons, if_pos hc] at h
    have hl := (List.dropWhile_suffix (l := cs) p).length_le
    rw [h] at hl
    simp only [List.length_cons] at hl
    omega

theorem pyStripL_word_line (w v : List Char) (hw1 : w ≠ []) (hw : ∀ c ∈ w, isWord c = true)
    (hv1 : v ≠ []) (hvr : v.rdropWhile isWS = v) :
    pyStripL (w ++ ' ' :: v) = w ++ ' ' :: v := by
  unfold pyStripL
  have hdrop : (w ++ ' ' :: v).dropWhile isWS = w ++ ' ' :: v := by
    cases w with
    | nil => exact absurd rfl hw1
    | cons c cs =>
      rw [List.cons_append, List.dropWhile_cons,
        if_neg (by simp [word_not_ws (hw c (by simp))])]
  rw [hdrop, List.rdropWhile_eq_self_iff]
  intro hne
  have hg : (w ++ ' ' :: v).getLast hne = v.getLast hv1 := by
    rw [List.getLast_append, dif_neg (by simp)]
    exact List.getLast_cons hv1
  rw [hg]
  exact List.rdropWhile_eq_self_iff.mp hvr hv1

theorem matchParamL_line (w v : List Char) (hw1 : w ≠ []) (hw : ∀ c ∈ w, isWord c = true)
    (hv1 : v ≠ []) (hvl : v.dropWhile isWS = v) (hvr : v.rdropWhile isWS = v)
    (hnl : ∀ c ∈ v, c ≠ '\n') :
    matchParamL (w ++ ' ' :: v) = some (w, v) := by
  have htw : (w ++ ' ' :: v).takeWhile isWord = w :=
    takeWhile_append_of _ _ _ _ hw (by decide)
  have hdw : (w ++ ' ' :: v).dropWhile isWord = ' ' :: v :=
    dropWhile_append_of _ _ _ _ hw (by decide)
  obtain ⟨c, cs, rfl⟩ : ∃ c cs, v = c :: cs := by
    cases v with
    | nil => exact absurd rfl hv1
    | cons c cs => exact ⟨c, cs, rfl⟩
  have hch : isWS c = false := head_false_of_dropWhile_self hvl
  have hsp : (' ' :: c :: cs).takeWhile isWS = [' '] := by
    rw [List.takeWhile_cons, if_pos (by decide), List.takeWhile_cons, if_neg (by simp [hch])]
  have hrem : (' ' :: c :: cs).dropWhile isWS = c :: cs := by
    rw [List.dropWhile_cons, if_pos (by decide)]
    exact hvl
  have hnltw : (c :: cs).takeWhile (fun ch => ch != '\n') = c :: cs :=
    List.takeWhile_eq_self_iff.mpr (fun x hx => by simp [hnl x hx])
  simp only [matchParamL, htw, hdw, hsp, hrem]
  rw [if_neg (by simp [hw1]), if_pos (by simp)]
  rw [hnltw]
  unfold pyStripL
  rw [hvl, hvr]

theorem matchBareExecL_line (v : List Char)
    (hv1 : v ≠ []) (hvl : v.dropWhile isWS = v) (hvr : v.rdropWhile isWS = v)
    (hnl : ∀ c ∈ v, c ≠ '\n') :
    matchBareExecL ('E' :: 'x' :: 'e' :: 'c' :: ' ' :: v) = some v := by
  obtain ⟨c, cs, rfl⟩ : ∃ c cs, v = c :: cs := by
    cases v with
    | nil => exact absurd rfl hv1
    | cons c cs => exact ⟨c, cs, rfl⟩
  have hch : isWS c = false := head_false_of_dropWhile_self hvl
  have hsp : (' ' :: c :: cs).takeWhile isWS = [' '] := by
    rw [List.takeWhile_cons, if_pos (by decide), List.takeWhile_cons, if_neg (by simp [hch])]
  have hrem : (' ' :: c :: cs).dropWhile isWS = c :: cs := by
    rw [List.dropWhile_cons, if_pos (by decide)]
    exact hvl
  have hnltw : (c :: cs).takeWhile (fun ch => ch != '\n') = c :: cs :=
    List.takeWhile_eq_self_iff.mpr (fun x hx => by simp [hnl x hx])
  simp only [matchBareExecL, hsp, hrem]
  rw [if_pos (by decide), if_neg (by simp), if_pos (by simp)]
  rw [hnltw]
  unfold pyStripL
  rw [hvl, hvr]

theorem matchOpenL_not_lt {c : Char} (rest : List Char) (h : c ≠ '<') :
    matchOpenL (c :: rest) = none := by
  simp [matchOpenL, h]

theorem matchCloseL_not_lt {c : Char} (rest : List Char) (h : c ≠ '<') :
    matchCloseL (c :: rest) = false := by
  cases rest with
  | nil => rfl
  | cons c2 r => simp [matchCloseL, h]

theorem matchExecOpenL_not_lt {c : Char} (rest : List Char) (h : c ≠ '<') :
    matchExecOpenL (c :: rest) = false := by
  simp [matchExecOpenL, h]

/-- Evaluation of one parser step on a parameter line `w ++ " " ++ v`
(word-shaped name, stripped nonempty value without newlines) whose name
is not `Exec` (case-insensitively), inside an open section context. -/
theorem stepLine_param_ne_exec (st : PState) (t n : String) (hcur : st.cur = some (t, n))
    (w v : List Char) (hw1 : w ≠ []) (hw : ∀ c ∈ w, isWord c = true)
    (hv1 : v ≠ []) (hvl : v.dropWhile isWS = v) (hvr : v.rdropWhile isWS = v)
    (hnl : ∀ c ∈ v, c ≠ '\n')
    (hne : String.mk (w.map Char.toLower) ≠ "exec") (ls : List String) :
    stepLine st (w ++ ' ' :: v) ls =
      ({ st with
          secModule := if String.mk w = "Module" then some (stripQuotes (String.mk v))
            else st.secModule
          fm := if t = "Route" ∧ String.mk w = "Path" then
              addRoute st.fm n (stripQuotes (String.mk v)) (dget st.details "Priority")
                (dget st.details "Condition")
            else st.fm
          details := dset st.details (String.mk w) (stripQuotes (String.mk v))
          records := st.records ++ [⟨t, n, String.mk w, stripQuotes (String.mk v)⟩] }, ls) := by
  obtain ⟨c, cs, rfl⟩ : ∃ c cs, w = c :: cs := by
    cases w with
    | nil => exact absurd rfl hw1
    | cons c cs => exact ⟨c, cs, rfl⟩
  have hc := word_ne_lt (hw c (by simp))
  have hO : matchOpenL ((c :: cs) ++ ' ' :: v) = none := by
    rw [List.cons_append]; exact matchOpenL_not_lt _ hc
  have hC : matchCloseL ((c :: cs) ++ ' ' :: v) = false := by
    rw [List.cons_append]; exact matchCloseL_not_lt _ hc
  have hE : matchExecOpenL ((c :: cs) ++ ' ' :: v) = false := by
    rw [List.cons_append]; exact matchExecOpenL_not_lt _ hc
  have hP : matchParamL ((c :: cs) ++ ' ' :: v) = some (c :: cs, v) :=
    matchParamL_line _ _ hw1 hw hv1 hvl hvr hnl
  simp only [stepLine, hO, hC, hE, hP, hcur,
    if_neg (show ¬((c :: cs) ++ ' ' :: v = []) by simp), if_neg hne]
  rfl

/-- Evaluation of one parser step on a bare `Exec`-named parameter line:
the implicit multi-line merge collects the following bare Exec lines and
joins all values with `" | "`. -/
theorem stepLine_param_exec (st : PState) (t n : String) (hcur : st.cur = some (t, n))
    (w v : List Char) (hw1 : w ≠ []) (hw : ∀ c ∈ w, isWord c = true)
    (hv1 : v ≠ []) (hvl : v.dropWhile isWS = v) (hvr : v.rdropWhile isWS = v)
    (hnl : ∀ c ∈ v, c ≠ '\n')
    (heq : String.mk (w.map Char.toLower) = "exec") (ls : List String) :
    stepLine st (w ++ ' ' :: v) ls =
      ({ st with
          secModule := if String.mk w = "Module" then
              some (stripQuotes (joinSep " | " (String.mk v :: (collectBareExec ls).1)))
            else st.secModule
          fm := if t = "Route" ∧ String.mk w = "Path" then
              addRoute st.fm n
                (stripQuotes (joinSep " | " (String.mk v :: (collectBareExec ls).1)))
                (dget st.details "Priority") (dget st.details "Condition")
            else st.fm
          details := dset st.details (String.mk w)
            (stripQuotes (joinSep " | " (String.mk v :: (collectBareExec ls).1)))
          records := st.records ++ [⟨t, n, String.mk w,
            stripQuotes (joinSep " | " (String.mk v :: (collectBareExec ls).1))⟩] },
        (collectBareExec ls).2) := by
  obtain ⟨c, cs, rfl⟩ : ∃ c cs, w = c :: cs := by
    cases w with
    | nil => exact absurd rfl hw1
    | cons c cs => exact ⟨c, cs, rfl⟩
  have hc := word_ne_lt (hw c (by simp))
  have hO : matchOpenL ((c :: cs) ++ ' ' :: v) = none := by
    rw [List.cons_append]; exact matchOpenL_not_lt _ hc
  have hC : matchCloseL ((c :: cs) ++ ' ' :: v) = false := by
    rw [List.cons_append]; exact matchCloseL_not_lt _ hc
  have hE : matchExecOpenL ((c :: cs) ++ ' ' :: v) = false := by
    rw [List.cons_append]; exact matchExecOpenL_not_lt _ hc
  have hP : matchParamL ((c :: cs) ++ ' ' :: v) = some (c :: cs, v) :=
    matchParamL_line _ _ hw1 hw hv1 hvl hvr hnl
  simp only [stepLine, hO, hC, hE, hP, hcur,
    if_neg (show ¬((c :: cs) ++ ' ' :: v = []) by simp), heq, if_pos rfl]
  rfl

/-- Model of `parse_config_file` on the file content: strip `#` comments to end of
line, split on newlines, run the scan loop, then `analyze_flows`; the
result pairs `file_data` with the analyzed mapper and the analysis dict. -/
def parseConfigFile (content : String) : List Rec × Mapper × Output :=
  let lines := (splitNl content.data).map (fun l => String.mk (l.takeWhile (fun c => c != '#')))
  let st := parseLines initPState lines
  let am := analyzeFlows st.fm
  (st.records, am.1, am.2)

/-! ### Adjacent-pair helper lemmas -/

theorem range_map_adjacent {α β : Type} (l : List α) (d : α) (g : α → α → β) :
    (List.range (l.length - 1)).map (fun i => g (l.getD i d) (l.getD (i + 1) d)) =
      (l.zip l.tail).map (fun p => g p.1 p.2) := by
  induction l with
  | nil => rfl
  | cons x xs ih =>
    cases xs with
    | nil => rfl
    | cons y ys =>
      simp only [List.length_cons, Nat.add_sub_cancel, List.range_succ_eq_map,
        List.map_cons, List.map_map]
      have hfun : ((fun i => g ((x :: y :: ys).getD i d) ((x :: y :: ys).getD (i + 1) d)) ∘
          Nat.succ) =
          (fun i => g ((y :: ys).getD i d) ((y :: ys).getD (i + 1) d)) := by
        funext i
        simp [List.getD_cons_succ]
      rw [hfun]
      have := ih
      simp only [List.length_cons, Nat.add_sub_cancel] at this
      rw [this]
      simp only [List.getD_cons_zero, List.getD_cons_succ, List.zip_cons_cons,
        List.tail_cons, List.map_cons]

theorem range_flatMap_adjacent {α β : Type} (l : List α) (d : α) (g : α → α → List β) :
    (List.range (l.length - 1)).flatMap (fun i => g (l.getD i d) (l.getD (i + 1) d)) =
      (l.zip l.tail).flatMap (fun p => g p.1 p.2) := by
  rw [List.flatMap_def, List.flatMap_def, range_map_adjacent l d g]

/-! ### Claims -/

/-- C1. For every route, flow analysis flattens
`allComponents = inputs ++ processors ++ outputs` and creates exactly one
Flow edge per consecutive pair of that list (list-adjacent elements only);
for `Path = "a, b => c => d, e"` the flattened list is `[a,b,c,d,e]` and
exactly the 4 edges a→b, b→c, c→d, d→e are produced. -/
theorem c1_route_edges_pairwise_adjacent :
    (∀ (secs : List (String × SectionEnt)) (rname : String) (info : RouteInfo),
      (flowsOfRoute secs rname info).map (fun f => (f.source, f.target)) =
        (allComponents info).zip (allComponents info).tail) ∧
    parseRoutePath "a, b => c => d, e" = (["a", "b"], ["c"], ["d", "e"]) ∧
    allComponents ⟨"a, b => c => d, e", none, none, ["a", "b"], ["c"], ["d", "e"]⟩ =
      ["a", "b", "c", "d", "e"] ∧
    (analyzeFlows (addRoute initMapper "r" "a, b => c => d, e" none none)).2.flows.map
        (fun f => (f.source, f.target)) =
      [("a", "b"), ("b", "c"), ("c", "d"), ("d", "e")] := by
  refine ⟨fun secs rname info => ?_, by decide, by decide, by decide⟩
  show ((List.range ((allComponents info).length - 1)).map
      (fun i => mkFlow secs rname info ((allComponents info).getD i "")
        ((allComponents info).getD (i + 1) ""))).map (fun f => (f.source, f.target)) = _
  rw [List.map_map]
  have h := range_map_adjacent (allComponents info) ""
    (fun a b => ((a, b) : String × String))
  have hfun : ((fun f => (f.source, f.target)) ∘
      (fun i => mkFlow secs rname info ((allComponents info).getD i "")
        ((allComponents info).getD (i + 1) ""))) =
      (fun i => (((allComponents info).getD i ""), ((allComponents info).getD (i + 1) ""))) :=
    rfl
  rw [hfun, h]
  simp

/-- C2. The auxiliary helper `_parse_path_expression` expands, for every
adjacent pair of `=>`-separated stages, the full cartesian product of their
comma-separated names; on `"a, b => c, d"` it yields the 4 pairs
a→c, a→d, b→c, b→d, while the primary pairwise-adjacency construction
yields the 3 edges a→b, b→c, c→d for the same expression. -/
theorem c2_expandPairs_cartesian_vs_adjacent :
    (∀ p : String,
      parsePathExpression p =
        (((splitArrow (pyStripL p.data)).map pyStripL).zip
            ((splitArrow (pyStripL p.data)).map pyStripL).tail).flatMap (fun seg =>
          ((splitComma seg.1).map pyStripL).flatMap (fun s =>
            ((splitComma seg.2).map pyStripL).flatMap (fun d =>
              if s ≠ [] ∧ d ≠ [] then [(String.mk (pyStripL s), String.mk (pyStripL d))]
              else [])))) ∧
    parsePathExpression "a, b => c, d" = [("a", "c"), ("a", "d"), ("b", "c"), ("b", "d")] ∧
    (analyzeFlows (addRoute initMapper "r" "a, b => c, d" none none)).2.flows.map
        (fun f => (f.source, f.target)) =
      [("a", "b"), ("b", "c"), ("c", "d")] := by
  refine ⟨fun p => ?_, by decide, by decide⟩
  exact range_flatMap_adjacent ((splitArrow (pyStripL p.data)).map pyStripL) []
    (fun a b =>
      ((splitComma a).map pyStripL).flatMap (fun s =>
        ((splitComma b).map pyStripL).flatMap (fun d =>
          if s ≠ [] ∧ d ≠ [] then [(String.mk (pyStripL s), String.mk (pyStripL d))]
          else [])))

/-! ### Dict lemmas -/

theorem dget_dset {α : Type} (d : List (String × α)) (k : String) (v : α) (k' : String) :
    dget (dset d k v) k' = if k' = k then some v else dget d k' := by
  induction d with
  | nil =>
    by_cases h : k' = k
    · subst h; simp [dget, dset]
    · have h2 : ¬ k = k' := fun he => h he.symm
      simp [dget, dset, h, h2]
  | cons p rest ih =>
    obtain ⟨k0, v0⟩ := p
    by_cases h0 : k0 = k
    · subst h0
      by_cases h : k' = k0
      · subst h; simp [dget, dset]
      · have h2 : ¬ k0 = k' := fun he => h he.symm
        simp [dget, dset, h, h2]
    · by_cases h : k0 = k'
      · subst h
        simp [dget, dset, h0]
      · simp [dget, dset, h0, h, ih]

theorem mem_dset {α : Type} : ∀ {d : List (String × α)} {k : String} {v : α} {p : String × α},
    p ∈ dset d k v → p = (k, v) ∨ p ∈ d := by
  intro d
  induction d with
  | nil =>
    intro k v p h
    simp only [dset, List.mem_singleton] at h
    exact Or.inl h
  | cons q rest ih =>
    intro k v p h
    obtain ⟨k0, v0⟩ := q
    simp only [dset] at h
    by_cases h0 : k0 = k
    · rw [if_pos h0] at h
      rcases List.mem_cons.mp h with h | h
      · exact Or.inl h
      · exact Or.inr (List.mem_cons_of_mem _ h)
    · rw [if_neg h0] at h
      rcases List.mem_cons.mp h with h | h
      · exact Or.inr (h ▸ List.mem_cons_self _ _)
      · rcases ih h with h | h
        · exact Or.inl h
        · exact Or.inr (List.mem_cons_of_mem _ h)

/-! ### C6 supporting lemmas: the second analysis run sees the same
type/module information, so it rebuilds the same flows -/

theorem lookupTM_markOne (secs : List (String × SectionEnt)) (rname s k : String) :
    lookupTM (markOne secs rname s) k = lookupTM secs k := by
  unfold markOne
  cases hs : dget secs s with
  | none => rfl
  | some sec =>
    unfold lookupTM
    rw [dget_dset]
    by_cases h : k = s
    · subst h; rw [if_pos rfl, hs]
    · rw [if_neg h]

theorem lookupTM_foldl_markOne (cs : List String) : ∀ (secs : List (String × SectionEnt))
    (rname k : String),
    lookupTM (cs.foldl (fun acc s => markOne acc rname s) secs) k = lookupTM secs k := by
  induction cs with
  | nil => intro secs rname k; rfl
  | cons c rest ih =>
    intro secs rname k
    rw [List.foldl_cons, ih, lookupTM_markOne]

theorem lookupTM_markRoute (secs : List (String × SectionEnt)) (rname : String)
    (info : RouteInfo) (k : String) :
    lookupTM (markRoute secs rname info) k = lookupTM secs k :=
  lookupTM_foldl_markOne _ _ _ _

theorem flowsOfRoute_congr {s1 s2 : List (String × SectionEnt)}
    (h : ∀ k, lookupTM s1 k = lookupTM s2 k) (rname : String) (info : RouteInfo) :
    flowsOfRoute s1 rname info = flowsOfRoute s2 rname info := by
  simp only [flowsOfRoute]
  have hfun : (fun i => mkFlow s1 rname info ((allComponents info).getD i "")
      ((allComponents info).getD (i + 1) "")) =
      (fun i => mkFlow s2 rname info ((allComponents info).getD i "")
        ((allComponents info).getD (i + 1) "")) := by
    funext i
    simp only [mkFlow, h]
  rw [hfun]

theorem analyzeGo_snd_congr : ∀ (routes : List (String × RouteInfo))
    (s1 s2 : List (String × SectionEnt)), (∀ k, lookupTM s1 k = lookupTM s2 k) →
    (analyzeGo s1 routes).2 = (analyzeGo s2 routes).2 := by
  intro routes
  induction routes with
  | nil => intro s1 s2 h; rfl
  | cons p rest ih =>
    intro s1 s2 h
    obtain ⟨n, info⟩ := p
    simp only [analyzeGo]
    have h1 : ∀ k, lookupTM (markRoute s1 n info) k = lookupTM (markRoute s2 n info) k :=
      fun k => by rw [lookupTM_markRoute, lookupTM_markRoute]; exact h k
    rw [flowsOfRoute_congr h1 n info, ih _ _ h1]

theorem analyzeGo_fst_TM : ∀ (routes : List (String × RouteInfo))
    (secs : List (String × SectionEnt)) (k : String),
    lookupTM (analyzeGo secs routes).1 k = lookupTM secs k := by
  intro routes
  induction routes with
  | nil => intro secs k; rfl
  | cons p rest ih =>
    intro secs k
    obtain ⟨n, info⟩ := p
    simp only [analyzeGo]
    rw [ih, lookupTM_markRoute]

/-! ### C9 supporting lemmas: every flow endpoint is a component of its route -/

theorem flowsOfRoute_endpoints {secs : List (String × SectionEnt)} {rname : String}
    {info : RouteInfo} {f : Flow} (hf : f ∈ flowsOfRoute secs rname info) :
    f.source ∈ allComponents info ∧ f.target ∈ allComponents info := by
  simp only [flowsOfRoute, List.mem_map, List.mem_range] at hf
  obtain ⟨i, hi, rfl⟩ := hf
  have h1 : i < (allComponents info).length := by omega
  have h2 : i + 1 < (allComponents info).length := by omega
  constructor
  · show (allComponents info).getD i "" ∈ _
    rw [List.getD_eq_getElem _ _ h1]
    exact List.getElem_mem h1
  · show (allComponents info).getD (i + 1) "" ∈ _
    rw [List.getD_eq_getElem _ _ h2]
    exact List.getElem_mem h2

theorem analyzeGo_endpoints : ∀ (routes : List (String × RouteInfo))
    (secs : List (String × SectionEnt)) (f : Flow), f ∈ (analyzeGo secs routes).2 →
    ∃ r ∈ routes, f.source ∈ allComponents r.2 ∧ f.target ∈ allComponents r.2 := by
  intro routes
  induction routes with
  | nil => intro secs f hf; simp [analyzeGo] at hf
  | cons p rest ih =>
    intro secs f hf
    obtain ⟨n, info⟩ := p
    simp only [analyzeGo, List.mem_append] at hf
    rcases hf with hf | hf
    · obtain ⟨h1, h2⟩ := flowsOfRoute_endpoints hf
      exact ⟨(n, info), List.mem_cons_self _ _, h1, h2⟩
    · obtain ⟨r, hr, h⟩ := ih _ _ hf
      exact ⟨r, List.mem_cons_of_mem _ hr, h⟩

/-! ### C5 supporting lemmas: counting sections by type -/

theorem sum_dset_bump (tc : List (String × Nat)) (k : String) :
    ((dset tc k ((dget tc k).getD 0 + 1)).map Prod.snd).sum = (tc.map Prod.snd).sum + 1 := by
  induction tc with
  | nil => simp [dset, dget]
  | cons p rest ih =>
    obtain ⟨k0, v0⟩ := p
    by_cases h : k0 = k
    · subst h
      simp [dset, dget]
      omega
    · simp only [dset, dget, if_neg h, List.map_cons, List.sum_cons]
      rw [ih]
      omega

theorem typeCounts_go_sum (sinfo : List (String × SInfo)) : ∀ tc : List (String × Nat),
    ((sinfo.foldl (fun tc p => dset tc p.2.type ((dget tc p.2.type).getD 0 + 1)) tc).map
      Prod.snd).sum = (tc.map Prod.snd).sum + sinfo.length := by
  induction sinfo with
  | nil => intro tc; simp
  | cons q rest ih =>
    intro tc
    rw [List.foldl_cons, ih, sum_dset_bump]
    simp only [List.length_cons]
    omega

theorem typeCounts_sum (sinfo : List (String × SInfo)) :
    ((typeCounts sinfo).map Prod.snd).sum = sinfo.length := by
  have h := typeCounts_go_sum sinfo []
  simpa [typeCounts] using h

theorem typeCounts_keys (sinfo : List (String × SInfo)) :
    ∀ (tc : List (String × Nat)) (p : String × Nat),
      p ∈ sinfo.foldl (fun tc q => dset tc q.2.type ((dget tc q.2.type).getD 0 + 1)) tc →
      p ∈ tc ∨ ∃ q ∈ sinfo, p.1 = q.2.type := by
  induction sinfo with
  | nil => intro tc p h; exact Or.inl h
  | cons q rest ih =>
    intro tc p h
    rw [List.foldl_cons] at h
    rcases ih _ p h with h | h
    · rcases mem_dset h with h | h
      · exact Or.inr ⟨q, List.mem_cons_self _ _, by rw [h]⟩
      · exact Or.inl h
    · obtain ⟨q', hq', he⟩ := h
      exact Or.inr ⟨q', List.mem_cons_of_mem _ hq', he⟩

theorem dget_foldl_dset_of_ne (tc : List (String × Nat)) :
    ∀ (base : List (String × Nat)) (k : String),
    (∀ p ∈ tc, p.1 ≠ k) → dget (tc.foldl (fun st p => dset st p.1 p.2) base) k = dget base k := by
  induction tc with
  | nil => intro base k h; rfl
  | cons q rest ih =>
    intro base k h
    rw [List.foldl_cons, ih _ _ (fun p hp => h p (List.mem_cons_of_mem _ hp)), dget_dset,
      if_neg (fun he => h q (List.mem_cons_self _ _) he.symm)]

/-- The four fixed keys of the base statistics dict. -/
def statKeys : List String :=
  ["total_routes", "total_sections", "total_flows", "unconnected_sections"]

/-! ### C3 supporting lemmas: sections are registered only at closing tags -/

theorem stepLine_sections_of_not_close (st : PState) (line : List Char) (ls : List String)
    (h : matchCloseL line = false) :
    (stepLine st line ls).1.fm.sections = st.fm.sections ∧
    (stepLine st line ls).1.fm.sectionsInfo = st.fm.sectionsInfo := by
  unfold stepLine
  split
  · exact ⟨rfl, rfl⟩
  · split
    · exact ⟨rfl, rfl⟩
    · rw [if_neg (by simp [h])]
      split
      · refine ⟨?_, ?_⟩ <;> (dsimp only) <;> (split <;> rfl)
      · split
        · split
          · exact ⟨rfl, rfl⟩
          · refine ⟨?_, ?_⟩ <;> (dsimp only) <;> (split <;> rfl)
        · exact ⟨rfl, rfl⟩

theorem parseLines_sections_of_no_close : ∀ (lines : List String) (st : PState),
    (∀ l ∈ lines, matchCloseL (pyStripL l.data) = false) →
    (parseLines st lines).fm.sections = st.fm.sections ∧
    (parseLines st lines).fm.sectionsInfo = st.fm.sectionsInfo := by
  have main : ∀ (n : Nat) (lines : List String), lines.length ≤ n → ∀ (st : PState),
      (∀ l ∈ lines, matchCloseL (pyStripL l.data) = false) →
      (parseLines st lines).fm.sections = st.fm.sections ∧
      (parseLines st lines).fm.sectionsInfo = st.fm.sectionsInfo := by
    intro n
    induction n with
    | zero =>
      intro lines hlen st h
      have : lines = [] := List.eq_nil_of_length_eq_zero (by omega)
      subst this
      exact ⟨rfl, rfl⟩
    | succ n ih =>
      intro lines hlen st h
      cases lines with
      | nil => exact ⟨rfl, rfl⟩
      | cons l ls =>
        rw [parseLines_cons]
        have hsuf := stepLine_rest_suffix st (pyStripL l.data) ls
        have hlen2 : (stepLine st (pyStripL l.data) ls).2.length ≤ n := by
          have := hsuf.length_le
          simp only [List.length_cons] at hlen
          omega
        have hmem : ∀ l' ∈ (stepLine st (pyStripL l.data) ls).2,
            matchCloseL (pyStripL l'.data) = false :=
          fun l' hl' => h l' (List.mem_cons_of_mem _ (hsuf.subset hl'))
        have hstep := stepLine_sections_of_not_close st (pyStripL l.data) ls
          (h l (List.mem_cons_self _ _))
        obtain ⟨ih1, ih2⟩ := ih _ hlen2 (stepLine st (pyStripL l.data) ls).1 hmem
        exact ⟨ih1.trans hstep.1, ih2.trans hstep.2⟩
  exact fun lines st h => main lines.length lines (Nat.le_refl _) st h

/-! ### Claims C3, C5, C6, C9 -/

/-- C3, counterexample.  The claim that every emitted ParameterRecord
carries a sectionName of a section whose closing tag was reached is false:
for the two-line document `<Input foo>` / `Module im_file` (no closing
tag), a record with sectionName `foo` is emitted although no section is
ever registered. -/
theorem c3_record_without_closed_section_counterexample :
    ¬ (∀ r ∈ (parseLines initPState ["<Input foo>", "Module im_file"]).records,
        ∃ e ∈ (parseLines initPState ["<Input foo>", "Module im_file"]).fm.sections,
          e.1 = r.sectionName) := by decide

/-- C3, amended.  Sections are registered only when a closing tag is
reached: on any input containing no line matching the closing-tag pattern,
the parser registers no section at all — in particular a section still
open when input ends is dropped, never registered.  (ParameterRecords,
however, are emitted as parameter lines are scanned, so records from an
unclosed trailing section do exist; see the counterexample.) -/
theorem c3_unclosed_sections_never_registered (lines : List String) (st : PState)
    (h : ∀ l ∈ lines, matchCloseL (pyStripL l.data) = false) :
    (parseLines st lines).fm.sections = st.fm.sections ∧
    (parseLines st lines).fm.sectionsInfo = st.fm.sectionsInfo :=
  parseLines_sections_of_no_close lines st h

/-- Witness for the amended C3 at a concrete unclosed document. -/
theorem c3_unclosed_sections_never_registered_witness :
    (∀ l ∈ ["<Input foo>", "Module im_file"], matchCloseL (pyStripL l.data) = false) ∧
    (parseLines initPState ["<Input foo>", "Module im_file"]).fm.sections =
      initPState.fm.sections :=
  ⟨by decide,
   (c3_unclosed_sections_never_registered ["<Input foo>", "Module im_file"] initPState
     (by decide)).1⟩

/-- C5, counterexample.  The claim `stats.total_flows == len(flows)`
for every analyzed graph is false: a declared section whose tag type is
the string `total_flows` makes `stats.update(type_counts)` overwrite the
`total_flows` entry with the per-type count. -/
theorem c5_stats_clobber_counterexample :
    dget (analyzeFlows (addSection initMapper "x" "total_flows" none [])).2.stats
        "total_flows" ≠
      some (analyzeFlows (addSection initMapper "x" "total_flows" none [])).2.flows.length := by
  decide

/-- C5, amended.  Provided no declared section type collides with one
of the four base statistics keys, `stats.total_flows = len(flows)`,
`stats.total_sections` is the section count, and the per-type counts sum
to the total section count. -/
theorem c5_stats_roundtrip (m : Mapper)
    (h : ∀ p ∈ m.sectionsInfo, p.2.type ∉ statKeys) :
    dget (analyzeFlows m).2.stats "total_flows" = some (analyzeFlows m).2.flows.length ∧
    dget (analyzeFlows m).2.stats "total_sections" = some m.sectionsInfo.length ∧
    ((typeCounts m.sectionsInfo).map Prod.snd).sum = m.sectionsInfo.length := by
  have hkeys : ∀ k ∈ statKeys, ∀ p ∈ typeCounts m.sectionsInfo, p.1 ≠ k := by
    intro k hk p hp hek
    rcases typeCounts_keys m.sectionsInfo [] p hp with h' | h'
    · simp at h'
    · obtain ⟨q, hq, he⟩ := h'
      exact h q hq (by rw [← he, hek]; exact hk)
  have hstats : (analyzeFlows m).2.stats = mkStats m.routes.length m.sectionsInfo
      (analyzeFlows m).2.flows.length (analyzeFlows m).2.unconnected.length := rfl
  refine ⟨?_, ?_, typeCounts_sum m.sectionsInfo⟩
  · rw [hstats]
    unfold mkStats
    rw [dget_foldl_dset_of_ne _ _ _ (hkeys "total_flows" (by simp [statKeys]))]
    simp [dget]
  · rw [hstats]
    unfold mkStats
    rw [dget_foldl_dset_of_ne _ _ _ (hkeys "total_sections" (by simp [statKeys]))]
    simp [dget]

/-- Witness for the amended C5 at a concrete mapper. -/
theorem c5_stats_roundtrip_witness :
    (∀ p ∈ (addSection initMapper "x" "Input" none []).sectionsInfo, p.2.type ∉ statKeys) ∧
    dget (analyzeFlows (addSection initMapper "x" "Input" none [])).2.stats "total_flows" =
      some (analyzeFlows (addSection initMapper "x" "Input" none [])).2.flows.length :=
  ⟨by decide, (c5_stats_roundtrip (addSection initMapper "x" "Input" none []) (by decide)).1⟩

/-- C6. Running `analyze_flows` a second time on the mapper state left
by the first run yields a bit-identical result dict, including the
serialized diagram: the output is a pure function of the routes, the
sections-info table and the rebuilt flows, all of which the first run
leaves unchanged (only `connected_routes` grows, which the flow
construction never reads). -/
theorem c6_analyze_twice_identical_output (m : Mapper) :
    (analyzeFlows (analyzeFlows m).1).2 = (analyzeFlows m).2 := by
  have hTM : ∀ k, lookupTM ((analyzeFlows m).1).sections k = lookupTM m.sections k :=
    fun k => analyzeGo_fst_TM m.routes m.sections k
  have hF : (analyzeGo ((analyzeFlows m).1).sections m.routes).2 =
      (analyzeGo m.sections m.routes).2 := analyzeGo_snd_congr m.routes _ _ hTM
  show analyzeOut m.routes m.sectionsInfo
      (analyzeGo ((analyzeFlows m).1).sections m.routes).2 =
    analyzeOut m.routes m.sectionsInfo (analyzeGo m.sections m.routes).2
  rw [hF]

/-- C9. After all routes are processed, `unconnectedSections` is exactly
the set of declared section names that are neither a source nor a target of
any flow; consequently a declared section named in the component list of no
list is unconnected and appears in no flow. -/
theorem c9_unconnected_eq_declared_minus_endpoints (m : Mapper) :
    (∀ k, k ∈ (analyzeFlows m).2.unconnected ↔
      k ∈ m.sectionsInfo.map Prod.fst ∧
        ∀ f ∈ (analyzeFlows m).2.flows, f.source ≠ k ∧ f.target ≠ k) ∧
    (∀ s, s ∈ m.sectionsInfo.map Prod.fst →
      (∀ r ∈ m.routes, s ∉ allComponents r.2) →
      s ∈ (analyzeFlows m).2.unconnected ∧
        ∀ f ∈ (analyzeFlows m).2.flows, f.source ≠ s ∧ f.target ≠ s) := by
  have hunc : (analyzeFlows m).2.unconnected = (m.sectionsInfo.map Prod.fst).filter
      (fun k => !((analyzeFlows m).2.flows.any (fun f => f.source == k || f.target == k))) :=
    rfl
  have hmem : ∀ k, k ∈ (analyzeFlows m).2.unconnected ↔
      k ∈ m.sectionsInfo.map Prod.fst ∧
        ∀ f ∈ (analyzeFlows m).2.flows, f.source ≠ k ∧ f.target ≠ k := by
    intro k
    rw [hunc, List.mem_filter]
    simp
  refine ⟨hmem, ?_⟩
  intro s hs hroutes
  have hflows : ∀ f ∈ (analyzeFlows m).2.flows, f.source ≠ s ∧ f.target ≠ s := by
    intro f hf
    obtain ⟨r, hr, hsrc, htgt⟩ :=
      analyzeGo_endpoints m.routes m.sections f hf
    exact ⟨fun he => hroutes r hr (he ▸ hsrc), fun he => hroutes r hr (he ▸ htgt)⟩
  exact ⟨(hmem s).mpr ⟨hs, hflows⟩, hflows⟩

/-- Witness for C9 at a concrete mapper: section `x` is declared but named
in no route, hence unconnected. -/
theorem c9_unconnected_witness :
    "x" ∈ (analyzeFlows (addRoute (addSection initMapper "x" "Input" none [])
        "r" "a => b" none none)).2.unconnected :=
  ((c9_unconnected_eq_declared_minus_endpoints
      (addRoute (addSection initMapper "x" "Input" none []) "r" "a => b" none none)).2
    "x" (by decide) (by decide)).1

/-! ### Evaluation lemmas for the Exec collectors -/

/-- One step of the implicit multi-line Exec scan on a bare `Exec value` line. -/
theorem collectBareExec_exec_cons (v : String) (hv1 : v.data ≠ [])
    (hvl : v.data.dropWhile isWS = v.data) (hvr : v.data.rdropWhile isWS = v.data)
    (hvn : ∀ ch ∈ v.data, ch ≠ '\n') (ls : List String) :
    collectBareExec (("Exec " ++ v) :: ls) =
      (v :: (collectBareExec ls).1, (collectBareExec ls).2) := by
  have hstrip : pyStripL ('E' :: 'x' :: 'e' :: 'c' :: ' ' :: v.data) =
      'E' :: 'x' :: 'e' :: 'c' :: ' ' :: v.data := by
    have h := pyStripL_word_line "Exec".data v.data (by decide) (by decide) hv1 hvr
    simpa using h
  have hmatch : matchBareExecL ('E' :: 'x' :: 'e' :: 'c' :: ' ' :: v.data) = some v.data :=
    matchBareExecL_line v.data hv1 hvl hvr hvn
  simp [collectBareExec, hstrip, hmatch, mkData]

/-- One step of the `<Exec>` block collector on a non-blank content line
that is not the closing `</Exec>` tag. -/
theorem collectExecBlock_content_cons (l : String) (hne : pyStripL l.data ≠ [])
    (hnc : matchExecCloseL (pyStripL l.data) = false) (ls : List String) :
    collectExecBlock (l :: ls) =
      (String.mk (pyStripL l.data) :: (collectExecBlock ls).1, (collectExecBlock ls).2) := by
  simp [collectExecBlock, hnc, hne]

/-- Evaluation of one parser step on an `<Exec>` opening line, in an open
section context, when the block captures at least one line. -/
theorem stepLine_exec_open_eval (st : PState) (t n : String) (hcur : st.cur = some (t, n))
    (ls : List String) (e1 : String) (erest rest : List String)
    (hce : collectExecBlock ls = (e1 :: erest, rest)) :
    stepLine st (pyStripL "<Exec>".data) ls =
      ({ st with records := st.records ++ [⟨t, n, "Exec", joinSep "\n" (e1 :: erest)⟩] },
        rest) := by
  have hO : matchOpenL (pyStripL "<Exec>".data) = none := rfl
  have hC : matchCloseL (pyStripL "<Exec>".data) = false := rfl
  have hE : matchExecOpenL (pyStripL "<Exec>".data) = true := rfl
  simp only [stepLine, hO, hC, hE, hce, hcur,
    if_neg (show ¬(pyStripL "<Exec>".data = []) by decide)]
  rfl

/-! ### Claims C4, C7, C8, C10 -/

/-- C4. Route registration reads `Priority`/`Condition` from the
attribute snapshot accumulated *before* the `Path` line: processing a
`Path` parameter line in any `Route` context registers the route with
the Priority entry of the details dict at that moment; hence in a Route
block where `Path` precedes `Priority`, the priority of the registered
route is absent although the `Priority` line is parsed later in the block. -/
theorem c4_priority_read_from_snapshot_before_path :
    (∀ (st : PState) (n : String) (v : List Char) (ls : List String),
      st.cur = some ("Route", n) → v ≠ [] → v.dropWhile isWS = v →
      v.rdropWhile isWS = v → (∀ ch ∈ v, ch ≠ '\n') →
      (stepLine st ("Path".data ++ ' ' :: v) ls).1.fm =
        addRoute st.fm n (stripQuotes (String.mk v)) (dget st.details "Priority")
          (dget st.details "Condition")) ∧
    (∀ v p : String,
      v.data ≠ [] → v.data.dropWhile isWS = v.data → v.data.rdropWhile isWS = v.data →
      (∀ ch ∈ v.data, ch ≠ '\n') →
      p.data ≠ [] → p.data.dropWhile isWS = p.data → p.data.rdropWhile isWS = p.data →
      (∀ ch ∈ p.data, ch ≠ '\n') →
      (dget (parseLines initPState
          ["<Route r>", "Path " ++ v, "Priority " ++ p, "</Route>"]).fm.routes "r").map
        RouteInfo.priority = some none ∧
      (parseLines initPState
          ["<Route r>", "Path " ++ v, "Priority " ++ p, "</Route>"]).records.map
        Rec.parameter = ["Path", "Priority"]) := by
  constructor
  · intro st n v ls hcur hv1 hvl hvr hvn
    rw [stepLine_param_ne_exec st "Route" n hcur "Path".data v (by decide) (by decide)
      hv1 hvl hvr hvn (by decide) ls]
    rfl
  · intro v p hv1 hvl hvr hvn hp1 hpl hpr hpn
    have e1 : stepLine initPState (pyStripL "<Route r>".data)
        ["Path " ++ v, "Priority " ++ p, "</Route>"] =
        (⟨some ("Route", "r"), none, [], [], initMapper⟩,
         ["Path " ++ v, "Priority " ++ p, "</Route>"]) := rfl
    rw [parseLines_cons, e1]
    dsimp only
    rw [parseLines_cons]
    have hs1 : pyStripL ("Path " ++ v).data = "Path".data ++ ' ' :: v.data := by
      rw [show ("Path " ++ v).data = "Path".data ++ ' ' :: v.data from by
        rw [String.data_append]; rfl]
      exact pyStripL_word_line _ _ (by decide) (by decide) hv1 hvr
    rw [hs1]
    rw [stepLine_param_ne_exec _ "Route" "r" rfl "Path".data v.data (by decide) (by decide)
      hv1 hvl hvr hvn (by decide) _]
    dsimp only
    rw [parseLines_cons]
    have hs2 : pyStripL ("Priority " ++ p).data = "Priority".data ++ ' ' :: p.data := by
      rw [show ("Priority " ++ p).data = "Priority".data ++ ' ' :: p.data from by
        rw [String.data_append]; rfl]
      exact pyStripL_word_line _ _ (by decide) (by decide) hp1 hpr
    rw [hs2]
    rw [stepLine_param_ne_exec _ "Route" "r" rfl "Priority".data p.data (by decide) (by decide)
      hp1 hpl hpr hpn (by decide) _]
    exact ⟨rfl, rfl⟩

/-- Witness for C4 at a concrete Route block with `Path` before `Priority`. -/
theorem c4_priority_read_from_snapshot_before_path_witness :
    (dget (parseLines initPState
        ["<Route r>", "Path a => b", "Priority 5", "</Route>"]).fm.routes "r").map
      RouteInfo.priority = some none :=
  (c4_priority_read_from_snapshot_before_path.2 "a => b" "5" (by decide) (by decide)
    (by decide) (by decide) (by decide) (by decide) (by decide) (by decide)).1

/-- C7. Three consecutive bare `Exec` lines inside one open section are
merged by the implicit multi-line Exec scan into exactly one
ParameterRecord with value `a | b | c`, and the cursor advances past all
consumed lines (the following close tag still registers the section). -/
theorem c7_implicit_exec_merge (a b c : String)
    (ha1 : a.data ≠ []) (hal : a.data.dropWhile isWS = a.data)
    (har : a.data.rdropWhile isWS = a.data) (han : ∀ ch ∈ a.data, ch ≠ '\n')
    (hb1 : b.data ≠ []) (hbl : b.data.dropWhile isWS = b.data)
    (hbr : b.data.rdropWhile isWS = b.data) (hbn : ∀ ch ∈ b.data, ch ≠ '\n')
    (hc1 : c.data ≠ []) (hcl : c.data.dropWhile isWS = c.data)
    (hcr : c.data.rdropWhile isWS = c.data) (hcn : ∀ ch ∈ c.data, ch ≠ '\n')
    (hq : stripQuotes (a ++ " | " ++ b ++ " | " ++ c) = a ++ " | " ++ b ++ " | " ++ c) :
    (parseLines initPState
        ["<Input s>", "Exec " ++ a, "Exec " ++ b, "Exec " ++ c, "</Input>"]).records =
      [⟨"Input", "s", "Exec", a ++ " | " ++ b ++ " | " ++ c⟩] ∧
    (parseLines initPState
        ["<Input s>", "Exec " ++ a, "Exec " ++ b, "Exec " ++ c, "</Input>"]).fm.sections =
      [("s", ⟨"Input", none, [("Exec", a ++ " | " ++ b ++ " | " ++ c)], []⟩)] := by
  have e1 : stepLine initPState (pyStripL "<Input s>".data)
      ["Exec " ++ a, "Exec " ++ b, "Exec " ++ c, "</Input>"] =
      (⟨some ("Input", "s"), none, [], [], initMapper⟩,
       ["Exec " ++ a, "Exec " ++ b, "Exec " ++ c, "</Input>"]) := rfl
  rw [parseLines_cons, e1]
  dsimp only
  rw [parseLines_cons]
  have hsA : pyStripL ("Exec " ++ a).data = "Exec".data ++ ' ' :: a.data := by
    rw [show ("Exec " ++ a).data = "Exec".data ++ ' ' :: a.data from by
      rw [String.data_append]; rfl]
    exact pyStripL_word_line _ _ (by decide) (by decide) ha1 har
  rw [hsA]
  rw [stepLine_param_exec _ "Input" "s" rfl "Exec".data a.data (by decide) (by decide)
    ha1 hal har han (by decide) _]
  have hcb : collectBareExec ["Exec " ++ b, "Exec " ++ c, "</Input>"] = ([b, c], ["</Input>"]) := by
    rw [collectBareExec_exec_cons b hb1 hbl hbr hbn, collectBareExec_exec_cons c hc1 hcl hcr hcn]
    rfl
  rw [hcb]
  dsimp only
  have hjoin : joinSep " | " (String.mk a.data :: [b, c]) = a ++ " | " ++ b ++ " | " ++ c := by
    show (a ++ " | ") ++ ((b ++ " | ") ++ c) = a ++ " | " ++ b ++ " | " ++ c
    simp [String.append_assoc]
  rw [hjoin, hq]
  exact ⟨rfl, rfl⟩

/-- Witness for C7 at three concrete bare Exec lines. -/
theorem c7_implicit_exec_merge_witness :
    (parseLines initPState
        ["<Input s>", "Exec log1()", "Exec log2()", "Exec log3()", "</Input>"]).records =
      [⟨"Input", "s", "Exec", "log1() | log2() | log3()"⟩] :=
  (c7_implicit_exec_merge "log1()" "log2()" "log3()" (by decide) (by decide) (by decide)
    (by decide) (by decide) (by decide) (by decide) (by decide) (by decide) (by decide)
    (by decide) (by decide) (by decide)).1

/-- C8. A tagged `<Exec>` block with two non-blank content lines and a
closing `</Exec>` produces exactly one ParameterRecord with parameter
`Exec` and value the two trimmed lines joined by a newline; the `</Exec>`
line is consumed and not included, and (unlike the bare form) the block
does not enter the attribute dict of the section. -/
theorem c8_tagged_exec_block (l1 l2 : String)
    (h11 : pyStripL l1.data ≠ []) (h1c : matchExecCloseL (pyStripL l1.data) = false)
    (h21 : pyStripL l2.data ≠ []) (h2c : matchExecCloseL (pyStripL l2.data) = false) :
    (parseLines initPState ["<Input s>", "<Exec>", l1, l2, "</Exec>", "</Input>"]).records =
      [⟨"Input", "s", "Exec", pyStrip l1 ++ "\n" ++ pyStrip l2⟩] ∧
    (parseLines initPState ["<Input s>", "<Exec>", l1, l2, "</Exec>", "</Input>"]).fm.sections =
      [("s", ⟨"Input", none, [], []⟩)] := by
  have hce : collectExecBlock [l1, l2, "</Exec>", "</Input>"] =
      (String.mk (pyStripL l1.data) :: String.mk (pyStripL l2.data) :: [], ["</Input>"]) := by
    rw [collectExecBlock_content_cons l1 h11 h1c, collectExecBlock_content_cons l2 h21 h2c]
    rfl
  have e1 : stepLine initPState (pyStripL "<Input s>".data)
      ["<Exec>", l1, l2, "</Exec>", "</Input>"] =
      (⟨some ("Input", "s"), none, [], [], initMapper⟩,
       ["<Exec>", l1, l2, "</Exec>", "</Input>"]) := rfl
  rw [parseLines_cons, e1]
  dsimp only
  rw [parseLines_cons, stepLine_exec_open_eval _ "Input" "s" rfl _ _ _ _ hce]
  exact ⟨rfl, rfl⟩

/-- Witness for C8 at a concrete tagged Exec block. -/
theorem c8_tagged_exec_block_witness :
    (parseLines initPState
        ["<Input s>", "<Exec>", " one ", "two", "</Exec>", "</Input>"]).records =
      [⟨"Input", "s", "Exec", "one\ntwo"⟩] :=
  (c8_tagged_exec_block " one " "two" (by decide) (by decide) (by decide) (by decide)).1

/-- C10. A parameter line whose value after trimming is exactly one
quote character (`"` or the single-quote) records the empty string as the
value: the one-character value both starts and ends with the quote, so the
quote-stripping step removes it entirely. -/
theorem c10_lone_quote_value_empty (w : String) (hw1 : w.data ≠ [])
    (hw : ∀ ch ∈ w.data, isWord ch = true) :
    (parseLines initPState ["<Input s>", w ++ " \"", "</Input>"]).records =
      [⟨"Input", "s", w, ""⟩] ∧
    (parseLines initPState ["<Input s>", w ++ String.mk [' ', squote], "</Input>"]).records =
      [⟨"Input", "s", w, ""⟩] := by
  have e1 : ∀ ls : List String, stepLine initPState (pyStripL "<Input s>".data) ls =
      (⟨some ("Input", "s"), none, [], [], initMapper⟩, ls) := fun ls => rfl
  have hcb : collectBareExec ["</Input>"] = ([], ["</Input>"]) := rfl
  constructor
  · rw [parseLines_cons, e1]
    dsimp only
    rw [parseLines_cons]
    have hs : pyStripL (w ++ " \"").data = w.data ++ ' ' :: [dquote] := by
      rw [show (w ++ " \"").data = w.data ++ ' ' :: [dquote] from by
        rw [String.data_append]; rfl]
      exact pyStripL_word_line _ _ hw1 hw (by decide) (by decide)
    rw [hs]
    by_cases hx : String.mk (w.data.map Char.toLower) = "exec"
    · rw [stepLine_param_exec _ "Input" "s" rfl w.data [dquote] hw1 hw (by decide) (by decide)
        (by decide) (by decide) hx _]
      rw [hcb]
      exact rfl
    · rw [stepLine_param_ne_exec _ "Input" "s" rfl w.data [dquote] hw1 hw (by decide)
        (by decide) (by decide) (by decide) hx _]
      exact rfl
  · rw [parseLines_cons, e1]
    dsimp only
    rw [parseLines_cons]
    have hs : pyStripL (w ++ String.mk [' ', squote]).data = w.data ++ ' ' :: [squote] := by
      rw [show (w ++ String.mk [' ', squote]).data = w.data ++ ' ' :: [squote] from by
        rw [String.data_append]]
      exact pyStripL_word_line _ _ hw1 hw (by decide) (by decide)
    rw [hs]
    by_cases hx : String.mk (w.data.map Char.toLower) = "exec"
    · rw [stepLine_param_exec _ "Input" "s" rfl w.data [squote] hw1 hw (by decide) (by decide)
        (by decide) (by decide) hx _]
      rw [hcb]
      exact rfl
    · rw [stepLine_param_ne_exec _ "Input" "s" rfl w.data [squote] hw1 hw (by decide)
        (by decide) (by decide) (by decide) hx _]
      exact rfl

/-- Witness for C10 at a concrete parameter name. -/
theorem c10_lone_quote_value_empty_witness :
    (parseLines initPState ["<Input s>", "Key \"", "</Input>"]).records =
      [⟨"Input", "s", "Key", ""⟩] :=
  (c10_lone_quote_value_empty "Key" (by decide) (by decide)).1

end NXLog
